import Mathlib

/-!
Verification of the low-stock notification reconciliation engine of the
Fogon inventory-management backend.

The definitions below are a shallow embedding of the Python source:
* `is_low_stock_product` embeds `is_low_stock_product` (app.py, lines 76-85);
* `run_low_stock_scan` embeds `run_low_stock_scan` (app.py, lines 89-148),
  with the database session made explicit: the scan takes the product table,
  the user table and the notification table as lists and returns the new
  notification table together with the list of deleted and the list of
  created notifications;
* `dedupLowStock` embeds the per-product LOW_STOCK deduplication loop of
  `api_notifications_list` (app.py, lines 1339-1357).

Database rows are modelled by structures mirroring models.py.  Nullable
integer columns become `Option Int` (Python's `x or 0` coalescing is
`Option.getD 0`; both `None or 0` and `0 or 0` evaluate to `0`).  A JSON
payload column is modelled by the `Payload` type: it is `NULL`, a non-dict
JSON value, or a dict from which only the keys `product_id` and `quantity`
are ever read by the code under verification.  The primary key of a freshly
constructed `Notification` is assigned by the database at commit and never
read by the scan; created rows carry `id = none`.
-/

namespace Fogon

/-- Product row (models.py).  Columns not read by the reconciler
(price, description, image_url) are omitted. -/
structure Product where
  id : Int
  name : String
  quantity : Option Int
  reorder_threshold : Option Int
deriving DecidableEq

/-- User row (models.py).  Only `id` and `role` are read by the reconciler. -/
structure User where
  id : Int
  role : String
deriving DecidableEq

/-- JSON payload column of a notification: NULL, a non-dict JSON value, or a
dict exposing the two keys the code reads (`none` when a key is absent). -/
inductive Payload where
  | null : Payload
  | nonDict : Payload
  | dict (product_id : Option Int) (quantity : Option Int) : Payload
deriving DecidableEq

/-- Notification row (models.py).  `created_at` is server-assigned and never
read by the reconciler or the dedup loop, so it is omitted. -/
structure Notification where
  id : Option Int
  user_id : Int
  type : String
  message : String
  payload : Payload
  is_read : Bool
deriving DecidableEq

/-- `pid = n.payload.get("product_id") if isinstance(n.payload, dict) else None`
(app.py, lines 116-118 and 1344-1346). -/
def extractPid : Payload → Option Int
  | Payload.dict pid _ => pid
  | _ => none

/-- app.py, lines 76-85: low when `threshold > 0 and quantity <= threshold`,
or unconditionally when `quantity < 2`. -/
def is_low_stock_product (p : Product) : Bool :=
  let threshold := p.reorder_threshold.getD 0
  let qty := p.quantity.getD 0
  if 0 < threshold ∧ qty ≤ threshold then true
  else decide (qty < 2)

/-- `User.query.filter_by(role="manager").all()` (app.py, line 90). -/
def managersOf (users : List User) : List User :=
  users.filter (fun u => decide (u.role = "manager"))

/-- `manager_ids = [m.id for m in managers]` (app.py, line 98). -/
def managerIds (managers : List User) : List Int :=
  managers.map (fun m => m.id)

/-- `low_product_ids = {p.id for p in all_products if is_low_stock_product(p)}`
(app.py, lines 100-103); a list used only through membership. -/
def lowProductIds (products : List Product) : List Int :=
  (products.filter is_low_stock_product).map (fun p => p.id)

/-- The deletion test of the cleanup loop (app.py, lines 114-125): a
notification fetched by the `existing` query (type LOW_STOCK, owner among
the manager ids) whose extractable `product_id` is not a low product id. -/
def isStale (low mids : List Int) (n : Notification) : Bool :=
  if n.type = "LOW_STOCK" ∧ n.user_id ∈ mids then
    match extractPid n.payload with
    | some pid => decide (pid ∉ low)
    | none => false
  else false

/-- One row's contribution to `existing_map` (app.py, lines 112-127): a
notification reached by the `existing` query (type LOW_STOCK, owner among the
manager ids) with an extractable `product_id` that is still low contributes
the pair (owner id, product id); every other row contributes nothing. -/
def pairOf (low mids : List Int) (n : Notification) : Option (Int × Int) :=
  (extractPid n.payload).bind (fun pid =>
    if n.type = "LOW_STOCK" ∧ n.user_id ∈ mids ∧ pid ∈ low then
      some (n.user_id, pid)
    else none)

/-- `existing_map` (app.py, lines 112-127) flattened to (manager id,
product id) pairs: the surviving entries of the cleanup loop. -/
def existingPairs (low mids : List Int) (notifs : List Notification) : List (Int × Int) :=
  notifs.filterMap (pairOf low mids)

/-- Python's f-string rendering of a nullable integer column. -/
def quantityText : Option Int → String
  | some q => toString q
  | none => "None"

/-- The notification constructed at app.py, lines 137-144. -/
def mkLowNotif (m : User) (p : Product) : Notification :=
  { id := none
  , user_id := m.id
  , type := "LOW_STOCK"
  , message := "Low stock: " ++ p.name ++ " has only " ++ quantityText p.quantity
      ++ " left in inventory."
  , payload := Payload.dict (some p.id) p.quantity
  , is_read := false }

/-- Inner creation loop over managers for one low product (app.py,
lines 134-146), threading the accumulated `existing_map` pairs. -/
def createForManagers (p : Product) : List User → List (Int × Int) →
    List Notification × List (Int × Int)
  | [], pairs => ([], pairs)
  | m :: rest, pairs =>
    if (m.id, p.id) ∈ pairs then createForManagers p rest pairs
    else
      (mkLowNotif m p :: (createForManagers p rest ((m.id, p.id) :: pairs)).1,
       (createForManagers p rest ((m.id, p.id) :: pairs)).2)

/-- Outer creation loop over products (app.py, lines 130-146). -/
def createMissing (managers : List User) (low : List Int) :
    List Product → List (Int × Int) → List Notification × List (Int × Int)
  | [], pairs => ([], pairs)
  | p :: rest, pairs =>
    if p.id ∈ low then
      ((createForManagers p managers pairs).1 ++
        (createMissing managers low rest (createForManagers p managers pairs).2).1,
       (createMissing managers low rest (createForManagers p managers pairs).2).2)
    else createMissing managers low rest pairs

/-- Result of one reconcile-and-apply pass: the notification table after
commit, the deleted rows and the created rows. -/
structure ScanResult where
  state : List Notification
  deleted : List Notification
  created : List Notification
deriving DecidableEq

/-- app.py, lines 89-148: the whole reconcile-and-apply pass. -/
def run_low_stock_scan (products : List Product) (users : List User)
    (notifs : List Notification) : ScanResult :=
  let managers := managersOf users
  if managers.isEmpty then ⟨notifs, [], []⟩
  else if products.isEmpty then ⟨notifs, [], []⟩
  else
    let mids := managerIds managers
    let low := lowProductIds products
    let created := (createMissing managers low products (existingPairs low mids notifs)).1
    ⟨notifs.filter (fun n => !(isStale low mids n)) ++ created,
     notifs.filter (isStale low mids),
     created⟩

/-- A LOW_STOCK notification owned by user id `u` whose payload carries
product id `q`. -/
def lcPred (u q : Int) (n : Notification) : Bool :=
  decide (n.user_id = u ∧ n.type = "LOW_STOCK" ∧ extractPid n.payload = some q)

/-- Number of LOW_STOCK notifications in a table owned by user id `u` whose
payload carries product id `q`. -/
def lowCount (notifs : List Notification) (u q : Int) : Nat :=
  (notifs.filter (lcPred u q)).length

/-- The dedup key of `api_notifications_list` (app.py, lines 1344-1351):
the payload's product id when extractable, otherwise the message text
before the first " has only". -/
inductive LowKey where
  | byId (pid : Int) : LowKey
  | byMsg (s : String) : LowKey
deriving DecidableEq

/-- Key computation for a LOW_STOCK item (app.py, lines 1344-1351). -/
def lowKey (n : Notification) : LowKey :=
  match extractPid n.payload with
  | some pid => LowKey.byId pid
  | none => LowKey.byMsg ((n.message.splitOn " has only").headD "")

/-- The filtering loop of `api_notifications_list` (app.py, lines 1339-1357):
keep every non-LOW_STOCK item; keep a LOW_STOCK item only when its key has
not been seen yet, recording the key. -/
def dedupLowStock : List Notification → List LowKey → List Notification
  | [], _ => []
  | n :: rest, seen =>
    if n.type = "LOW_STOCK" then
      if lowKey n ∈ seen then dedupLowStock rest seen
      else n :: dedupLowStock rest (lowKey n :: seen)
    else n :: dedupLowStock rest seen

/-- A LOW_STOCK item carrying dedup key `k`. -/
def kcPred (k : LowKey) (n : Notification) : Bool :=
  decide (n.type = "LOW_STOCK" ∧ lowKey n = k)

/-- Number of LOW_STOCK items in a list whose dedup key is `k`. -/
def keyCount (l : List Notification) (k : LowKey) : Nat :=
  (l.filter (kcPred k)).length

/-! ### Sample rows used by concrete witnesses and counterexamples -/

def mgrOne : User := ⟨1, "manager"⟩

def prodLow : Product := ⟨2, "Eggs", some 1, some 0⟩

def prodHigh : Product := ⟨3, "Rice", some 10, some 0⟩

def staleNotif : Notification :=
  ⟨some 40, 1, "LOW_STOCK", "Low stock: Rice has only 1 left in inventory.",
    Payload.dict (some 3) (some 1), true⟩

def malformedNotif : Notification :=
  ⟨some 41, 1, "LOW_STOCK", "broken", Payload.null, false⟩

def otherOwnerNotif : Notification :=
  ⟨some 42, 9, "LOW_STOCK", "Low stock: Rice has only 1 left in inventory.",
    Payload.dict (some 3) (some 1), false⟩

def dupLowNotif : Notification :=
  ⟨some 50, 1, "LOW_STOCK", "Low stock: Eggs has only 1 left in inventory.",
    Payload.dict (some 2) (some 1), false⟩

def scenarioCreated : Notification :=
  ⟨none, 1, "LOW_STOCK", "Low stock: Eggs has only 1 left in inventory.",
    Payload.dict (some 2) (some 1), false⟩

end Fogon

namespace Fogon

/-! ### Basic facts about the scan -/

theorem managersOf_ne_nil {users : List User} {M : User}
    (hM : M ∈ users) (hrole : M.role = "manager") : managersOf users ≠ [] := by
  have : M ∈ managersOf users := by
    simp [managersOf, List.mem_filter, hM, hrole]
  exact List.ne_nil_of_mem this

theorem run_noop (products : List Product) (users : List User)
    (notifs : List Notification)
    (h : managersOf users = [] ∨ products = []) :
    run_low_stock_scan products users notifs = ⟨notifs, [], []⟩ := by
  rw [run_low_stock_scan]
  simp only [List.isEmpty_iff]
  rcases h with h | h
  · rw [if_pos h]
  · by_cases hm : managersOf users = []
    · rw [if_pos hm]
    · rw [if_neg hm, if_pos h]

theorem run_eq_of_nonempty {products : List Product} {users : List User}
    (notifs : List Notification)
    (hm : managersOf users ≠ []) (hp : products ≠ []) :
    run_low_stock_scan products users notifs =
      ⟨notifs.filter (fun n => !(isStale (lowProductIds products)
          (managerIds (managersOf users)) n)) ++
        (createMissing (managersOf users) (lowProductIds products) products
          (existingPairs (lowProductIds products) (managerIds (managersOf users)) notifs)).1,
       notifs.filter (isStale (lowProductIds products) (managerIds (managersOf users))),
       (createMissing (managersOf users) (lowProductIds products) products
          (existingPairs (lowProductIds products) (managerIds (managersOf users)) notifs)).1⟩ := by
  rw [run_low_stock_scan]
  simp only [List.isEmpty_iff]
  rw [if_neg hm, if_neg hp]

/-- C4: the low-stock predicate is exactly
`(threshold > 0 and quantity <= threshold) or quantity < 2`, with the four
boundary cases from the spec: threshold 5 / quantity 5 is low, quantity 6 is
not; threshold 0 / quantity 1 is low, quantity 2 is not. -/
theorem fogon_C4_is_low_characterization :
    (∀ p : Product, is_low_stock_product p = true ↔
      ((0 < p.reorder_threshold.getD 0 ∧
          p.quantity.getD 0 ≤ p.reorder_threshold.getD 0) ∨
        p.quantity.getD 0 < 2))
    ∧ is_low_stock_product ⟨1, "a", some 5, some 5⟩ = true
    ∧ is_low_stock_product ⟨1, "a", some 6, some 5⟩ = false
    ∧ is_low_stock_product ⟨1, "a", some 1, some 0⟩ = true
    ∧ is_low_stock_product ⟨1, "a", some 2, some 0⟩ = false := by
  refine ⟨fun p => ?_, by decide, by decide, by decide, by decide⟩
  by_cases h : 0 < p.reorder_threshold.getD 0 ∧
      p.quantity.getD 0 ≤ p.reorder_threshold.getD 0
  · simp [is_low_stock_product, h]
  · simp [is_low_stock_product, h]

/-- C5: with no manager or no product the pass short-circuits: nothing is
deleted, nothing is created, and the notification table is returned
untouched. -/
theorem fogon_C5_empty_noop (products : List Product) (users : List User)
    (notifs : List Notification)
    (h : managersOf users = [] ∨ products = []) :
    run_low_stock_scan products users notifs = ⟨notifs, [], []⟩ :=
  run_noop products users notifs h

theorem fogon_C5_empty_noop_witness :
    run_low_stock_scan [] [⟨1, "manager"⟩]
      [⟨some 9, 1, "LOW_STOCK", "m", Payload.dict (some 3) (some 0), false⟩] =
      ⟨[⟨some 9, 1, "LOW_STOCK", "m", Payload.dict (some 3) (some 0), false⟩], [], []⟩ :=
  fogon_C5_empty_noop [] [⟨1, "manager"⟩]
    [⟨some 9, 1, "LOW_STOCK", "m", Payload.dict (some 3) (some 0), false⟩]
    (Or.inr rfl)

/-- C8: the scan is a deterministic pure function of the product table, the
user table and the notification table: equal inputs give equal outputs. -/
theorem fogon_C8_deterministic (ps₁ ps₂ : List Product) (us₁ us₂ : List User)
    (ns₁ ns₂ : List Notification)
    (hp : ps₁ = ps₂) (hu : us₁ = us₂) (hn : ns₁ = ns₂) :
    run_low_stock_scan ps₁ us₁ ns₁ = run_low_stock_scan ps₂ us₂ ns₂ := by
  subst hp; subst hu; subst hn; rfl

theorem fogon_C8_deterministic_witness :
    run_low_stock_scan [⟨1, "x", some 0, some 0⟩] [⟨2, "manager"⟩] [] =
      run_low_stock_scan [⟨1, "x", some 0, some 0⟩] [⟨2, "manager"⟩] [] :=
  fogon_C8_deterministic _ _ _ _ _ _ rfl rfl rfl

/-! ### The deletion test and the `existing_map` pairs, characterized -/

theorem isStale_eq_true_iff {low mids : List Int} {n : Notification} :
    isStale low mids n = true ↔
      n.type = "LOW_STOCK" ∧ n.user_id ∈ mids ∧
        ∃ pid, extractPid n.payload = some pid ∧ pid ∉ low := by
  rw [isStale]
  by_cases hc : n.type = "LOW_STOCK" ∧ n.user_id ∈ mids
  · rw [if_pos hc]
    cases hpid : extractPid n.payload with
    | none => simp [hpid, hc.1, hc.2]
    | some pid => simp [hpid, hc.1, hc.2]
  · rw [if_neg hc]
    constructor
    · intro h
      simp at h
    · intro h
      exact absurd ⟨h.1, h.2.1⟩ hc

theorem isStale_of_extract_none (low mids : List Int) {n : Notification}
    (h : extractPid n.payload = none) : isStale low mids n = false := by
  rw [isStale]
  split
  · rw [h]
  · rfl

theorem isStale_of_not_manager (low mids : List Int) {n : Notification}
    (h : n.user_id ∉ mids) : isStale low mids n = false := by
  rw [isStale, if_neg]
  intro hc
  exact h hc.2

theorem pairOf_of_extract_none (low mids : List Int) {n : Notification}
    (h : extractPid n.payload = none) : pairOf low mids n = none := by
  rw [pairOf, h]
  rfl

theorem pairOf_of_not_manager (low mids : List Int) {n : Notification}
    (h : n.user_id ∉ mids) : pairOf low mids n = none := by
  cases hpid : extractPid n.payload with
  | none => rw [pairOf, hpid]; rfl
  | some pid =>
    rw [pairOf, hpid]
    simp only [Option.some_bind]
    rw [if_neg]
    intro hc
    exact h hc.2.1

theorem pairOf_eq_some_iff {low mids : List Int} {n : Notification} {u q : Int} :
    pairOf low mids n = some (u, q) ↔
      n.user_id = u ∧ n.type = "LOW_STOCK" ∧ extractPid n.payload = some q ∧
        q ∈ low ∧ u ∈ mids := by
  constructor
  · intro hf
    cases hpid : extractPid n.payload with
    | none =>
      rw [pairOf, hpid] at hf
      simp at hf
    | some pid =>
      rw [pairOf, hpid] at hf
      simp only [Option.some_bind] at hf
      by_cases hc : n.type = "LOW_STOCK" ∧ n.user_id ∈ mids ∧ pid ∈ low
      · rw [if_pos hc] at hf
        obtain ⟨h1, h2⟩ := Prod.ext_iff.mp (Option.some.inj hf)
        dsimp at h1 h2
        subst h1
        subst h2
        exact ⟨rfl, hc.1, rfl, hc.2.2, hc.2.1⟩
      · rw [if_neg hc] at hf
        simp at hf
  · rintro ⟨h1, h2, h3, h4, h5⟩
    subst h1
    rw [pairOf, h3]
    simp only [Option.some_bind]
    rw [if_pos ⟨h2, h5, h4⟩]

theorem mem_existingPairs {low mids : List Int} {ns : List Notification} {u q : Int} :
    (u, q) ∈ existingPairs low mids ns ↔
      ∃ n ∈ ns, n.user_id = u ∧ n.type = "LOW_STOCK" ∧
        extractPid n.payload = some q ∧ q ∈ low ∧ u ∈ mids := by
  simp only [existingPairs, List.mem_filterMap, pairOf_eq_some_iff]

/-! ### Shape of the created notifications -/

theorem createForManagers_mem {p : Product} {n : Notification} :
    ∀ (ms : List User) (pairs : List (Int × Int)),
      n ∈ (createForManagers p ms pairs).1 → ∃ m ∈ ms, n = mkLowNotif m p := by
  intro ms
  induction ms with
  | nil => intro pairs h; simp [createForManagers] at h
  | cons m rest ih =>
    intro pairs h
    rw [createForManagers] at h
    by_cases hc : (m.id, p.id) ∈ pairs
    · rw [if_pos hc] at h
      obtain ⟨m2, hm2, he⟩ := ih pairs h
      exact ⟨m2, List.mem_cons_of_mem _ hm2, he⟩
    · rw [if_neg hc] at h
      rcases List.mem_cons.mp h with he | h2
      · exact ⟨m, List.mem_cons_self m rest, he⟩
      · obtain ⟨m2, hm2, he⟩ := ih _ h2
        exact ⟨m2, List.mem_cons_of_mem _ hm2, he⟩

theorem createMissing_mem {managers : List User} {low : List Int} {n : Notification} :
    ∀ (ps : List Product) (pairs : List (Int × Int)),
      n ∈ (createMissing managers low ps pairs).1 →
        ∃ m p, m ∈ managers ∧ p ∈ ps ∧ p.id ∈ low ∧ n = mkLowNotif m p := by
  intro ps
  induction ps with
  | nil => intro pairs h; simp [createMissing] at h
  | cons p rest ih =>
    intro pairs h
    rw [createMissing] at h
    by_cases hc : p.id ∈ low
    · rw [if_pos hc] at h
      rcases List.mem_append.mp h with h1 | h2
      · obtain ⟨m, hm, he⟩ := createForManagers_mem managers pairs h1
        exact ⟨m, p, hm, List.mem_cons_self p rest, hc, he⟩
      · obtain ⟨m, p2, hm, hp2, hl2, he⟩ := ih _ h2
        exact ⟨m, p2, hm, List.mem_cons_of_mem _ hp2, hl2, he⟩
    · rw [if_neg hc] at h
      obtain ⟨m, p2, hm, hp2, hl2, he⟩ := ih _ h
      exact ⟨m, p2, hm, List.mem_cons_of_mem _ hp2, hl2, he⟩

/-- C2: with at least one manager and at least one product, every
manager-owned LOW_STOCK notification whose payload carries a product id that
is not a currently-low product id is deleted by the pass, whatever its read
flag, and no such notification survives in the resulting table. -/
theorem fogon_C2_stale_cleanup (ps : List Product) (us : List User)
    (ns : List Notification)
    (hm : managersOf us ≠ []) (hp : ps ≠ []) :
    (∀ n ∈ ns, n.type = "LOW_STOCK" → n.user_id ∈ managerIds (managersOf us) →
      ∀ pid, extractPid n.payload = some pid → pid ∉ lowProductIds ps →
        n ∈ (run_low_stock_scan ps us ns).deleted)
    ∧ (∀ n ∈ (run_low_stock_scan ps us ns).state,
        ¬(n.type = "LOW_STOCK" ∧ n.user_id ∈ managerIds (managersOf us) ∧
          ∃ pid, extractPid n.payload = some pid ∧ pid ∉ lowProductIds ps)) := by
  rw [run_eq_of_nonempty ns hm hp]
  constructor
  · intro n hn htype hown pid hpid hlow
    exact List.mem_filter.mpr
      ⟨hn, isStale_eq_true_iff.mpr ⟨htype, hown, pid, hpid, hlow⟩⟩
  · intro n hn hbad
    rcases List.mem_append.mp hn with h1 | h2
    · have := (List.mem_filter.mp h1).2
      rw [isStale_eq_true_iff.mpr ⟨hbad.1, hbad.2.1, hbad.2.2⟩] at this
      exact absurd this (by simp)
    · obtain ⟨m, p, _, _, hl, he⟩ := createMissing_mem _ _ h2
      obtain ⟨pid, hpid, hnl⟩ := hbad.2.2
      rw [he] at hpid
      have : pid = p.id := by
        have : some p.id = some pid := hpid
        exact (Option.some.inj this).symm
      rw [this] at hnl
      exact hnl hl

theorem fogon_C2_stale_cleanup_witness :
    staleNotif ∈ (run_low_stock_scan [prodHigh] [mgrOne] [staleNotif]).deleted :=
  (fogon_C2_stale_cleanup [prodHigh] [mgrOne] [staleNotif]
      (by decide) (by decide)).1 staleNotif (by decide) (by decide) (by decide)
    3 (by decide) (by decide)

/-- C6: a manager-owned LOW_STOCK notification with no extractable product id
is never deleted (it survives in the resulting table), and its presence
changes neither the deleted nor the created rows of the pass. -/
theorem fogon_C6_malformed_untouched (ps : List Product) (us : List User)
    (l1 l2 : List Notification) (n : Notification)
    (htype : n.type = "LOW_STOCK")
    (hown : n.user_id ∈ managerIds (managersOf us))
    (hnone : extractPid n.payload = none) :
    (run_low_stock_scan ps us (l1 ++ n :: l2)).deleted =
        (run_low_stock_scan ps us (l1 ++ l2)).deleted
    ∧ (run_low_stock_scan ps us (l1 ++ n :: l2)).created =
        (run_low_stock_scan ps us (l1 ++ l2)).created
    ∧ n ∈ (run_low_stock_scan ps us (l1 ++ n :: l2)).state := by
  by_cases hm : managersOf us = []
  · rw [run_noop ps us _ (Or.inl hm), run_noop ps us _ (Or.inl hm)]
    exact ⟨rfl, rfl, by simp⟩
  · by_cases hp : ps = []
    · rw [run_noop ps us _ (Or.inr hp), run_noop ps us _ (Or.inr hp)]
      exact ⟨rfl, rfl, by simp⟩
    · rw [run_eq_of_nonempty (l1 ++ n :: l2) hm hp, run_eq_of_nonempty (l1 ++ l2) hm hp]
      have hstale := isStale_of_extract_none (lowProductIds ps)
        (managerIds (managersOf us)) hnone
      have hpair := pairOf_of_extract_none (lowProductIds ps)
        (managerIds (managersOf us)) hnone
      refine ⟨?_, ?_, ?_⟩
      · simp [List.filter_append, List.filter_cons, hstale]
      · simp [existingPairs, List.filterMap_append, List.filterMap_cons, hpair]
      · simp [List.filter_append, List.filter_cons, hstale]

theorem fogon_C6_malformed_untouched_witness :
    (run_low_stock_scan [prodLow] [mgrOne] ([] ++ malformedNotif :: [])).deleted =
        (run_low_stock_scan [prodLow] [mgrOne] ([] ++ [])).deleted
    ∧ (run_low_stock_scan [prodLow] [mgrOne] ([] ++ malformedNotif :: [])).created =
        (run_low_stock_scan [prodLow] [mgrOne] ([] ++ [])).created
    ∧ malformedNotif ∈ (run_low_stock_scan [prodLow] [mgrOne]
        ([] ++ malformedNotif :: [])).state :=
  fogon_C6_malformed_untouched [prodLow] [mgrOne] [] [] malformedNotif
    (by decide) (by decide) (by decide)

/-- C10: a notification owned by a user who is not currently a manager is
left untouched by the pass — it survives in the resulting table — and its
presence changes neither the deleted nor the created rows, even when its
payload references a product that is not currently low. -/
theorem fogon_C10_nonmanager_untouched (ps : List Product) (us : List User)
    (l1 l2 : List Notification) (n : Notification)
    (hown : n.user_id ∉ managerIds (managersOf us)) :
    (run_low_stock_scan ps us (l1 ++ n :: l2)).deleted =
        (run_low_stock_scan ps us (l1 ++ l2)).deleted
    ∧ (run_low_stock_scan ps us (l1 ++ n :: l2)).created =
        (run_low_stock_scan ps us (l1 ++ l2)).created
    ∧ n ∈ (run_low_stock_scan ps us (l1 ++ n :: l2)).state := by
  by_cases hm : managersOf us = []
  · rw [run_noop ps us _ (Or.inl hm), run_noop ps us _ (Or.inl hm)]
    exact ⟨rfl, rfl, by simp⟩
  · by_cases hp : ps = []
    · rw [run_noop ps us _ (Or.inr hp), run_noop ps us _ (Or.inr hp)]
      exact ⟨rfl, rfl, by simp⟩
    · rw [run_eq_of_nonempty (l1 ++ n :: l2) hm hp, run_eq_of_nonempty (l1 ++ l2) hm hp]
      have hstale := isStale_of_not_manager (lowProductIds ps)
        (managerIds (managersOf us)) hown
      have hpair := pairOf_of_not_manager (lowProductIds ps)
        (managerIds (managersOf us)) hown
      refine ⟨?_, ?_, ?_⟩
      · simp [List.filter_append, List.filter_cons, hstale]
      · simp [existingPairs, List.filterMap_append, List.filterMap_cons, hpair]
      · simp [List.filter_append, List.filter_cons, hstale]

/-! ### Counting LOW_STOCK notifications per (manager, product) pair -/

theorem lowCount_nil (u q : Int) : lowCount [] u q = 0 := rfl

theorem lowCount_cons (n : Notification) (l : List Notification) (u q : Int) :
    lowCount (n :: l) u q = (if lcPred u q n then 1 else 0) + lowCount l u q := by
  rw [lowCount, lowCount, List.filter_cons]
  split
  · simp [Nat.add_comm]
  · simp

theorem lowCount_append (l1 l2 : List Notification) (u q : Int) :
    lowCount (l1 ++ l2) u q = lowCount l1 u q + lowCount l2 u q := by
  rw [lowCount, lowCount, lowCount, List.filter_append, List.length_append]

theorem lowCount_pos_iff {l : List Notification} {u q : Int} :
    0 < lowCount l u q ↔
      ∃ n ∈ l, n.user_id = u ∧ n.type = "LOW_STOCK" ∧
        extractPid n.payload = some q := by
  rw [lowCount, List.length_pos_iff_exists_mem]
  simp [List.mem_filter, lcPred]

theorem lcPred_mkLowNotif (u q : Int) (m : User) (p : Product) :
    lcPred u q (mkLowNotif m p) = decide (m.id = u ∧ p.id = q) := by
  simp [lcPred, mkLowNotif, extractPid, and_assoc]

theorem isStale_of_extract_low (low mids : List Int) {n : Notification} {q : Int}
    (h : extractPid n.payload = some q) (hq : q ∈ low) :
    isStale low mids n = false := by
  rw [isStale]
  split
  · rw [h]
    simp [hq]
  · rfl

theorem isStale_mkLowNotif (low mids : List Int) (m : User) (p : Product)
    (h : p.id ∈ low) : isStale low mids (mkLowNotif m p) = false :=
  isStale_of_extract_low low mids (by rfl) h

theorem lowCount_filter_not_stale (low mids : List Int) (u q : Int) (hq : q ∈ low) :
    ∀ ns : List Notification,
      lowCount (ns.filter (fun n => !(isStale low mids n))) u q = lowCount ns u q := by
  intro ns
  induction ns with
  | nil => rfl
  | cons n rest ih =>
    rw [List.filter_cons]
    by_cases hst : isStale low mids n = true
    · have hpc : lcPred u q n = false := by
        cases hpc2 : lcPred u q n
        · rfl
        · exfalso
          obtain ⟨_, _, hx⟩ := of_decide_eq_true hpc2
          rw [isStale_of_extract_low low mids hx hq] at hst
          exact absurd hst (by simp)
      rw [if_neg (by simp [hst]), ih, lowCount_cons, hpc]
      simp
    · rw [if_pos (by simp [Bool.not_eq_true] at hst; simp [hst]),
        lowCount_cons, lowCount_cons, ih]

/-! ### Behaviour of the creation loops -/

theorem managerIds_cons (m : User) (rest : List User) :
    managerIds (m :: rest) = m.id :: managerIds rest := rfl

theorem createForManagers_spec (p : Product) (u q : Int) :
    ∀ (ms : List User) (pairs : List (Int × Int)),
      ((u, q) ∈ (createForManagers p ms pairs).2 ↔
        (u, q) ∈ pairs ∨ (q = p.id ∧ u ∈ managerIds ms))
      ∧ lowCount (createForManagers p ms pairs).1 u q =
          (if (u, q) ∈ pairs then 0
           else if q = p.id ∧ u ∈ managerIds ms then 1 else 0) := by
  intro ms
  induction ms with
  | nil =>
    intro pairs
    constructor
    · simp [createForManagers, managerIds]
    · simp [createForManagers, managerIds, lowCount_nil]
  | cons m rest ih =>
    intro pairs
    by_cases hc : (m.id, p.id) ∈ pairs
    · have hkey : q = p.id → u = m.id → (u, q) ∈ pairs := by
        intro h1 h2
        rw [h1, h2]
        exact hc
      obtain ⟨ihm, ihc⟩ := ih pairs
      rw [createForManagers, if_pos hc]
      constructor
      · rw [ihm, managerIds_cons]
        simp only [List.mem_cons]
        constructor
        · rintro (h | ⟨hq2, hu2⟩)
          · exact Or.inl h
          · exact Or.inr ⟨hq2, Or.inr hu2⟩
        · rintro (h | ⟨hq2, hu2 | hu2⟩)
          · exact Or.inl h
          · exact Or.inl (hkey hq2 hu2)
          · exact Or.inr ⟨hq2, hu2⟩
      · rw [ihc, managerIds_cons]
        simp only [List.mem_cons]
        by_cases hin : (u, q) ∈ pairs
        · rw [if_pos hin, if_pos hin]
        · rw [if_neg hin, if_neg hin]
          by_cases hq2 : q = p.id ∧ (u = m.id ∨ u ∈ managerIds rest)
        -- the head manager case would contradict hin via hkey
          · rcases hq2.2 with hu2 | hu2
            · exact absurd (hkey hq2.1 hu2) hin
            · rw [if_pos ⟨hq2.1, hu2⟩, if_pos hq2]
          · rw [if_neg (fun hculp => hq2 ⟨hculp.1, Or.inr hculp.2⟩), if_neg hq2]
    · obtain ⟨ihm, ihc⟩ := ih ((m.id, p.id) :: pairs)
      rw [createForManagers, if_neg hc]
      constructor
      · show (u, q) ∈ (createForManagers p rest ((m.id, p.id) :: pairs)).2 ↔ _
        rw [ihm, managerIds_cons]
        simp only [List.mem_cons, Prod.mk.injEq]
        tauto
      · show lowCount (mkLowNotif m p ::
            (createForManagers p rest ((m.id, p.id) :: pairs)).1) u q = _
        rw [lowCount_cons, lcPred_mkLowNotif, ihc, managerIds_cons]
        simp only [List.mem_cons, Prod.mk.injEq, decide_eq_true_eq]
        by_cases hA : (u, q) ∈ pairs
        · have hh : ¬(m.id = u ∧ p.id = q) := by
            rintro ⟨h1, h2⟩
            apply hc
            rw [h1, h2]
            exact hA
          simp [hA, hh]
        · by_cases hE2 : q = p.id
          · by_cases hE1 : u = m.id
            · subst hE1
              subst hE2
              simp [hA]
            · subst hE2
              have hE1b : ¬(m.id = u) := fun h => hE1 h.symm
              simp [hA, hE1, hE1b]
          · have hE2b : ¬(p.id = q) := fun h => hE2 h.symm
            simp [hA, hE2, hE2b]

theorem createMissing_spec (managers : List User) (low : List Int) (u q : Int) :
    ∀ (ps : List Product) (pairs : List (Int × Int)),
      ((u, q) ∈ (createMissing managers low ps pairs).2 ↔
        (u, q) ∈ pairs ∨
          ((∃ p2 ∈ ps, p2.id = q) ∧ q ∈ low ∧ u ∈ managerIds managers))
      ∧ lowCount (createMissing managers low ps pairs).1 u q =
          (if (u, q) ∈ pairs then 0
           else if (∃ p2 ∈ ps, p2.id = q) ∧ q ∈ low ∧ u ∈ managerIds managers then 1
           else 0) := by
  intro ps
  induction ps with
  | nil =>
    intro pairs
    constructor
    · simp [createMissing]
    · simp [createMissing, lowCount_nil]
  | cons p rest ih =>
    intro pairs
    by_cases hl : p.id ∈ low
    · have hql : p.id = q → q ∈ low := fun h => h ▸ hl
      obtain ⟨cfm, cfc⟩ := createForManagers_spec p u q managers pairs
      obtain ⟨ihm, ihc⟩ := ih (createForManagers p managers pairs).2
      rw [createMissing, if_pos hl]
      constructor
      · show (u, q) ∈ (createMissing managers low rest
            (createForManagers p managers pairs).2).2 ↔ _
        rw [ihm, cfm]
        constructor
        · rintro ((h | ⟨hq2, hu2⟩) | ⟨⟨p2, hp2, hq2⟩, hql2, hu2⟩)
          · exact Or.inl h
          · exact Or.inr ⟨⟨p, List.mem_cons_self p rest, hq2.symm⟩, hql hq2.symm, hu2⟩
          · exact Or.inr ⟨⟨p2, List.mem_cons_of_mem _ hp2, hq2⟩, hql2, hu2⟩
        · rintro (h | ⟨⟨p2, hp2, hq2⟩, hql2, hu2⟩)
          · exact Or.inl (Or.inl h)
          · rcases List.mem_cons.mp hp2 with he | hm2
            · exact Or.inl (Or.inr ⟨(he ▸ hq2 : p.id = q).symm, hu2⟩)
            · exact Or.inr ⟨⟨p2, hm2, hq2⟩, hql2, hu2⟩
      · show lowCount ((createForManagers p managers pairs).1 ++
            (createMissing managers low rest (createForManagers p managers pairs).2).1)
            u q = _
        rw [lowCount_append, cfc, ihc]
        by_cases hA : (u, q) ∈ pairs
        · rw [if_pos hA, if_pos (cfm.mpr (Or.inl hA)), if_pos hA]
        · rw [if_neg hA, if_neg hA]
          by_cases hB : q = p.id ∧ u ∈ managerIds managers
          · rw [if_pos hB, if_pos (cfm.mpr (Or.inr hB)),
              if_pos ⟨⟨p, List.mem_cons_self p rest, hB.1.symm⟩, hql hB.1.symm, hB.2⟩]
          · have hcf : (u, q) ∉ (createForManagers p managers pairs).2 :=
              fun h => (cfm.mp h).elim hA hB
            rw [if_neg hB, if_neg hcf]
            by_cases hR : (∃ p2 ∈ rest, p2.id = q) ∧ q ∈ low ∧ u ∈ managerIds managers
            · rw [if_pos hR, if_pos ⟨hR.1.elim fun p2 hp2 =>
                ⟨p2, List.mem_cons_of_mem _ hp2.1, hp2.2⟩, hR.2⟩]
            · rw [if_neg hR, if_neg (fun h => ?_)]
              rcases h.1 with ⟨p2, hp2, hq2⟩
              rcases List.mem_cons.mp hp2 with he | hm2
              · exact hB ⟨(he ▸ hq2 : p.id = q).symm, h.2.2⟩
              · exact hR ⟨⟨p2, hm2, hq2⟩, h.2⟩
    · have hnql : ¬(p.id = q ∧ q ∈ low) := fun h => hl (h.1.symm ▸ h.2)
      obtain ⟨ihm, ihc⟩ := ih pairs
      rw [createMissing, if_neg hl]
      constructor
      · rw [ihm]
        constructor
        · rintro (h | ⟨⟨p2, hp2, hq2⟩, hql2, hu2⟩)
          · exact Or.inl h
          · exact Or.inr ⟨⟨p2, List.mem_cons_of_mem _ hp2, hq2⟩, hql2, hu2⟩
        · rintro (h | ⟨⟨p2, hp2, hq2⟩, hql2, hu2⟩)
          · exact Or.inl h
          · rcases List.mem_cons.mp hp2 with he | hm2
            · exact absurd ⟨he ▸ hq2, hql2⟩ hnql
            · exact Or.inr ⟨⟨p2, hm2, hq2⟩, hql2, hu2⟩
      · rw [ihc]
        refine if_congr Iff.rfl rfl (if_congr ?_ rfl rfl)
        constructor
        · rintro ⟨⟨p2, hp2, hq2⟩, hql2, hu2⟩
          exact ⟨⟨p2, List.mem_cons_of_mem _ hp2, hq2⟩, hql2, hu2⟩
        · rintro ⟨⟨p2, hp2, hq2⟩, hql2, hu2⟩
          rcases List.mem_cons.mp hp2 with he | hm2
          · exact absurd ⟨he ▸ hq2, hql2⟩ hnql
          · exact ⟨⟨p2, hm2, hq2⟩, hql2, hu2⟩

theorem createForManagers_saturated (p : Product) :
    ∀ (ms : List User) (pairs : List (Int × Int)),
      (∀ m ∈ ms, (m.id, p.id) ∈ pairs) → createForManagers p ms pairs = ([], pairs) := by
  intro ms
  induction ms with
  | nil => intro pairs _; rfl
  | cons m rest ih =>
    intro pairs h
    rw [createForManagers, if_pos (h m (List.mem_cons_self m rest))]
    exact ih pairs (fun m2 hm2 => h m2 (List.mem_cons_of_mem _ hm2))

theorem createMissing_saturated (managers : List User) (low : List Int) :
    ∀ (ps : List Product) (pairs : List (Int × Int)),
      (∀ p ∈ ps, p.id ∈ low → ∀ m ∈ managers, (m.id, p.id) ∈ pairs) →
      createMissing managers low ps pairs = ([], pairs) := by
  intro ps
  induction ps with
  | nil => intro pairs _; rfl
  | cons p rest ih =>
    intro pairs h
    by_cases hl : p.id ∈ low
    · have hcf : createForManagers p managers pairs = ([], pairs) :=
        createForManagers_saturated p managers pairs
          (fun m hm => h p (List.mem_cons_self p rest) hl m hm)
      rw [createMissing, if_pos hl, hcf]
      have hrest := ih pairs
        (fun p2 hp2 hl2 m hm => h p2 (List.mem_cons_of_mem _ hp2) hl2 m hm)
      rw [hrest]
      rfl
    · rw [createMissing, if_neg hl]
      exact ih pairs
        (fun p2 hp2 hl2 m hm => h p2 (List.mem_cons_of_mem _ hp2) hl2 m hm)

theorem fogon_C10_nonmanager_untouched_witness :
    (run_low_stock_scan [prodLow] [mgrOne] ([] ++ otherOwnerNotif :: [])).deleted =
        (run_low_stock_scan [prodLow] [mgrOne] ([] ++ [])).deleted
    ∧ (run_low_stock_scan [prodLow] [mgrOne] ([] ++ otherOwnerNotif :: [])).created =
        (run_low_stock_scan [prodLow] [mgrOne] ([] ++ [])).created
    ∧ otherOwnerNotif ∈ (run_low_stock_scan [prodLow] [mgrOne]
        ([] ++ otherOwnerNotif :: [])).state :=
  fogon_C10_nonmanager_untouched [prodLow] [mgrOne] [] [] otherOwnerNotif
    (by decide)

/-! ### After one pass, every (manager, low product) pair is covered and no
survivor is stale -/

theorem state_not_stale {ps : List Product} {us : List User} (ns : List Notification)
    (hm : managersOf us ≠ []) (hp : ps ≠ []) :
    ∀ n ∈ (run_low_stock_scan ps us ns).state,
      isStale (lowProductIds ps) (managerIds (managersOf us)) n = false := by
  rw [run_eq_of_nonempty ns hm hp]
  intro n hn
  rcases List.mem_append.mp hn with h1 | h2
  · have h3 := (List.mem_filter.mp h1).2
    cases hst : isStale (lowProductIds ps) (managerIds (managersOf us)) n
    · rfl
    · rw [hst] at h3
      exact absurd h3 (by simp)
  · obtain ⟨m, p, _, _, hl, he⟩ := createMissing_mem _ _ h2
    rw [he]
    exact isStale_mkLowNotif _ _ m p hl

theorem state_saturated {ps : List Product} {us : List User} (ns : List Notification)
    (hm : managersOf us ≠ []) (hp : ps ≠ []) :
    ∀ p ∈ ps, p.id ∈ lowProductIds ps → ∀ m ∈ managersOf us,
      (m.id, p.id) ∈ existingPairs (lowProductIds ps) (managerIds (managersOf us))
        (run_low_stock_scan ps us ns).state := by
  intro p hpmem hpl m hmmem
  have hmid : m.id ∈ managerIds (managersOf us) := List.mem_map.mpr ⟨m, hmmem, rfl⟩
  rw [run_eq_of_nonempty ns hm hp]
  by_cases hpair : (m.id, p.id) ∈
      existingPairs (lowProductIds ps) (managerIds (managersOf us)) ns
  · obtain ⟨n, hn, hu, ht, hx, _, _⟩ := mem_existingPairs.mp hpair
    have hst : isStale (lowProductIds ps) (managerIds (managersOf us)) n = false :=
      isStale_of_extract_low _ _ hx hpl
    refine mem_existingPairs.mpr ⟨n, ?_, hu, ht, hx, hpl, hmid⟩
    exact List.mem_append_left _ (List.mem_filter.mpr ⟨hn, by simp [hst]⟩)
  · have hcnt := (createMissing_spec (managersOf us) (lowProductIds ps) m.id p.id ps
      (existingPairs (lowProductIds ps) (managerIds (managersOf us)) ns)).2
    rw [if_neg hpair, if_pos ⟨⟨p, hpmem, rfl⟩, hpl, hmid⟩] at hcnt
    have hpos : 0 < lowCount ((createMissing (managersOf us) (lowProductIds ps) ps
        (existingPairs (lowProductIds ps) (managerIds (managersOf us)) ns)).1)
        m.id p.id := by
      rw [hcnt]
      exact Nat.one_pos
    obtain ⟨n, hn, hu, ht, hx⟩ := lowCount_pos_iff.mp hpos
    refine mem_existingPairs.mpr ⟨n, ?_, hu, ht, hx, hpl, hmid⟩
    exact List.mem_append_right _ hn

/-- C3: running the pass a second time on the table it produced, with
products and users unchanged, deletes nothing, creates nothing, and leaves
the notification table exactly as after the first pass. -/
theorem fogon_C3_idempotent (ps : List Product) (us : List User)
    (ns : List Notification) :
    (run_low_stock_scan ps us (run_low_stock_scan ps us ns).state).deleted = []
    ∧ (run_low_stock_scan ps us (run_low_stock_scan ps us ns).state).created = []
    ∧ (run_low_stock_scan ps us (run_low_stock_scan ps us ns).state).state =
        (run_low_stock_scan ps us ns).state := by
  by_cases hm : managersOf us = []
  · have h1 := run_noop ps us ns (Or.inl hm)
    have h2 := run_noop ps us (run_low_stock_scan ps us ns).state (Or.inl hm)
    rw [h2, h1]
    exact ⟨rfl, rfl, rfl⟩
  · by_cases hp : ps = []
    · have h1 := run_noop ps us ns (Or.inr hp)
      have h2 := run_noop ps us (run_low_stock_scan ps us ns).state (Or.inr hp)
      rw [h2, h1]
      exact ⟨rfl, rfl, rfl⟩
    · have hns := state_not_stale ns hm hp
      have hsat := state_saturated ns hm hp
      have hsatur := createMissing_saturated (managersOf us) (lowProductIds ps) ps
        (existingPairs (lowProductIds ps) (managerIds (managersOf us))
          (run_low_stock_scan ps us ns).state) hsat
      have hkept : (run_low_stock_scan ps us ns).state.filter
          (fun n => !(isStale (lowProductIds ps) (managerIds (managersOf us)) n)) =
          (run_low_stock_scan ps us ns).state :=
        List.filter_eq_self.mpr (fun n hn => by simp [hns n hn])
      rw [run_eq_of_nonempty ((run_low_stock_scan ps us ns).state) hm hp]
      refine ⟨?_, ?_, ?_⟩
      · rw [List.filter_eq_nil_iff]
        intro n hn
        simp [hns n hn]
      · rw [hsatur]
      · rw [hsatur, hkept]
        simp

/-- C1 (as frozen) is falsified by a table that already holds two LOW_STOCK
notifications for the same manager and the same still-low product: the pass
keeps both and creates none, so two notifications remain, not exactly one. -/
theorem fogon_C1_counterexample :
    is_low_stock_product prodLow = true
    ∧ mgrOne.role = "manager"
    ∧ lowCount (run_low_stock_scan [prodLow] [mgrOne]
        [dupLowNotif, dupLowNotif]).state mgrOne.id prodLow.id = 2
    ∧ lowCount (run_low_stock_scan [prodLow] [mgrOne]
        [dupLowNotif, dupLowNotif]).state mgrOne.id prodLow.id ≠ 1 := by
  exact ⟨by decide, rfl, by decide, by decide⟩

/-- C1 (amended): after one pass, every manager M and low product P own at
least one LOW_STOCK notification with P's id in the payload, and exactly one
provided the input table held at most one such notification for (M, P). -/
theorem fogon_C1_exactly_one (ps : List Product) (us : List User)
    (ns : List Notification) (M : User) (P : Product)
    (hM : M ∈ us) (hrole : M.role = "manager") (hP : P ∈ ps)
    (hlow : is_low_stock_product P = true) :
    1 ≤ lowCount (run_low_stock_scan ps us ns).state M.id P.id
    ∧ (lowCount ns M.id P.id ≤ 1 →
        lowCount (run_low_stock_scan ps us ns).state M.id P.id = 1) := by
  have hmgr : M ∈ managersOf us := List.mem_filter.mpr ⟨hM, by simp [hrole]⟩
  have hm : managersOf us ≠ [] := List.ne_nil_of_mem hmgr
  have hp : ps ≠ [] := List.ne_nil_of_mem hP
  have hmid : M.id ∈ managerIds (managersOf us) := List.mem_map.mpr ⟨M, hmgr, rfl⟩
  have hql : P.id ∈ lowProductIds ps :=
    List.mem_map.mpr ⟨P, List.mem_filter.mpr ⟨hP, hlow⟩, rfl⟩
  rw [run_eq_of_nonempty ns hm hp]
  show 1 ≤ lowCount (_ ++ _) M.id P.id ∧ _
  rw [lowCount_append,
    lowCount_filter_not_stale (lowProductIds ps) (managerIds (managersOf us))
      M.id P.id hql ns]
  have hcr := (createMissing_spec (managersOf us) (lowProductIds ps) M.id P.id ps
    (existingPairs (lowProductIds ps) (managerIds (managersOf us)) ns)).2
  by_cases hpair : (M.id, P.id) ∈
      existingPairs (lowProductIds ps) (managerIds (managersOf us)) ns
  · rw [if_pos hpair] at hcr
    rw [hcr]
    have hpos : 0 < lowCount ns M.id P.id := by
      obtain ⟨n, hn, hu, ht, hx, _, _⟩ := mem_existingPairs.mp hpair
      exact lowCount_pos_iff.mpr ⟨n, hn, hu, ht, hx⟩
    exact ⟨by omega, fun hle => by omega⟩
  · rw [if_neg hpair, if_pos ⟨⟨P, hP, rfl⟩, hql, hmid⟩] at hcr
    rw [hcr]
    have hz : lowCount ns M.id P.id = 0 := by
      by_contra hnz
      obtain ⟨n, hn, hu, ht, hx⟩ := lowCount_pos_iff.mp (Nat.pos_of_ne_zero hnz)
      exact hpair (mem_existingPairs.mpr ⟨n, hn, hu, ht, hx, hql, hmid⟩)
    exact ⟨by omega, fun _ => by omega⟩

theorem fogon_C1_exactly_one_witness :
    1 ≤ lowCount (run_low_stock_scan [prodLow] [mgrOne] []).state
        mgrOne.id prodLow.id
    ∧ (lowCount ([] : List Notification) mgrOne.id prodLow.id ≤ 1 →
        lowCount (run_low_stock_scan [prodLow] [mgrOne] []).state
          mgrOne.id prodLow.id = 1) :=
  fogon_C1_exactly_one [prodLow] [mgrOne] [] mgrOne prodLow
    (by decide) rfl (by decide) (by decide)

/-- C7: every notification created by the pass belongs to a manager and a
currently-low product and carries exactly the templated message, the
`{product_id, quantity}` payload, type LOW_STOCK and an unread flag; in the
one-manager, one-low-product scenario the pass creates exactly that one
notification. -/
theorem fogon_C7_created_shape :
    (∀ (ps : List Product) (us : List User) (ns : List Notification)
        (c : Notification), c ∈ (run_low_stock_scan ps us ns).created →
      ∃ m p, m ∈ managersOf us ∧ p ∈ ps ∧ p.id ∈ lowProductIds ps ∧
        c.user_id = m.id ∧ c.type = "LOW_STOCK" ∧
        c.payload = Payload.dict (some p.id) p.quantity ∧ c.is_read = false ∧
        c.message = "Low stock: " ++ p.name ++ " has only " ++
          quantityText p.quantity ++ " left in inventory.")
    ∧ (run_low_stock_scan [prodLow] [mgrOne] []).created = [scenarioCreated] := by
  constructor
  · intro ps us ns c hc
    by_cases hm : managersOf us = []
    · rw [run_noop ps us ns (Or.inl hm)] at hc
      exact absurd hc (by simp)
    · by_cases hp : ps = []
      · rw [run_noop ps us ns (Or.inr hp)] at hc
        exact absurd hc (by simp)
      · rw [run_eq_of_nonempty ns hm hp] at hc
        obtain ⟨m, p, hmm, hpm, hl, he⟩ := createMissing_mem _ _ hc
        subst he
        exact ⟨m, p, hmm, hpm, hl, rfl, rfl, rfl, rfl, rfl⟩
  · decide

theorem fogon_C7_created_shape_witness :
    ∃ m p, m ∈ managersOf [mgrOne] ∧ p ∈ [prodLow] ∧
      p.id ∈ lowProductIds [prodLow] ∧
      scenarioCreated.user_id = m.id ∧ scenarioCreated.type = "LOW_STOCK" ∧
      scenarioCreated.payload = Payload.dict (some p.id) p.quantity ∧
      scenarioCreated.is_read = false ∧
      scenarioCreated.message = "Low stock: " ++ p.name ++ " has only " ++
        quantityText p.quantity ++ " left in inventory." :=
  fogon_C7_created_shape.1 [prodLow] [mgrOne] [] scenarioCreated (by decide)

/-! ### The LOW_STOCK dedup loop of the notification listing -/

theorem keyCount_cons (n : Notification) (l : List Notification) (k : LowKey) :
    keyCount (n :: l) k = (if kcPred k n then 1 else 0) + keyCount l k := by
  rw [keyCount, keyCount, List.filter_cons]
  split
  · simp [Nat.add_comm]
  · simp

theorem dedup_other_types :
    ∀ (l : List Notification) (seen : List LowKey),
      (dedupLowStock l seen).filter (fun n => !decide (n.type = "LOW_STOCK")) =
        l.filter (fun n => !decide (n.type = "LOW_STOCK")) := by
  intro l
  induction l with
  | nil => intro seen; rfl
  | cons n rest ih =>
    intro seen
    rw [dedupLowStock]
    by_cases ht : n.type = "LOW_STOCK"
    · rw [if_pos ht]
      by_cases hs : lowKey n ∈ seen
      · rw [if_pos hs, ih seen, List.filter_cons, if_neg (by simp [ht])]
      · rw [if_neg hs, List.filter_cons, List.filter_cons,
          if_neg (by simp [ht]), if_neg (by simp [ht])]
        exact ih _
    · rw [if_neg ht, List.filter_cons, List.filter_cons,
        if_pos (by simp [ht]), if_pos (by simp [ht]), ih seen]

theorem dedup_keyCount_seen (k : LowKey) :
    ∀ (l : List Notification) (seen : List LowKey), k ∈ seen →
      keyCount (dedupLowStock l seen) k = 0 := by
  intro l
  induction l with
  | nil => intro seen _; rfl
  | cons n rest ih =>
    intro seen hk
    rw [dedupLowStock]
    by_cases ht : n.type = "LOW_STOCK"
    · rw [if_pos ht]
      by_cases hs : lowKey n ∈ seen
      · rw [if_pos hs]
        exact ih seen hk
      · have hkn : ¬(lowKey n = k) := fun he => hs (he ▸ hk)
        rw [if_neg hs, keyCount_cons, if_neg (by simp [kcPred, hkn])]
        rw [ih (lowKey n :: seen) (List.mem_cons_of_mem _ hk)]
    · rw [if_neg ht, keyCount_cons, if_neg (by simp [kcPred, ht])]
      rw [ih seen hk]

theorem dedup_keyCount_new (k : LowKey) :
    ∀ (l : List Notification) (seen : List LowKey), k ∉ seen →
      keyCount (dedupLowStock l seen) k =
        (if ∃ n ∈ l, n.type = "LOW_STOCK" ∧ lowKey n = k then 1 else 0) := by
  intro l
  induction l with
  | nil =>
    intro seen _
    simp [dedupLowStock, keyCount]
  | cons n rest ih =>
    intro seen hk
    rw [dedupLowStock]
    by_cases ht : n.type = "LOW_STOCK"
    · rw [if_pos ht]
      by_cases hs : lowKey n ∈ seen
      · have hkn : ¬(lowKey n = k) := fun he => hk (he ▸ hs)
        rw [if_pos hs, ih seen hk]
        refine if_congr ?_ rfl rfl
        constructor
        · rintro ⟨n2, hn2, h2⟩
          exact ⟨n2, List.mem_cons_of_mem _ hn2, h2⟩
        · rintro ⟨n2, hn2, h2⟩
          rcases List.mem_cons.mp hn2 with he | hm
          · exact absurd (he ▸ h2.2) hkn
          · exact ⟨n2, hm, h2⟩
      · rw [if_neg hs]
        by_cases hkn : lowKey n = k
        · rw [keyCount_cons, if_pos (by simp [kcPred, ht, hkn])]
          rw [dedup_keyCount_seen k rest (lowKey n :: seen)
            (hkn ▸ List.mem_cons_self (lowKey n) seen)]
          rw [if_pos ⟨n, List.mem_cons_self n rest, ht, hkn⟩]
        · rw [keyCount_cons, if_neg (by simp [kcPred, hkn])]
          rw [ih (lowKey n :: seen)
            (fun hmem => (List.mem_cons.mp hmem).elim (fun he => hkn he.symm) hk)]
          simp only [Nat.zero_add]
          refine if_congr ?_ rfl rfl
          constructor
          · rintro ⟨n2, hn2, h2⟩
            exact ⟨n2, List.mem_cons_of_mem _ hn2, h2⟩
          · rintro ⟨n2, hn2, h2⟩
            rcases List.mem_cons.mp hn2 with he | hm
            · exact absurd (he ▸ h2.2) hkn
            · exact ⟨n2, hm, h2⟩
    · rw [if_neg ht, keyCount_cons, if_neg (by simp [kcPred, ht])]
      rw [ih seen hk]
      simp only [Nat.zero_add]
      refine if_congr ?_ rfl rfl
      constructor
      · rintro ⟨n2, hn2, h2⟩
        exact ⟨n2, List.mem_cons_of_mem _ hn2, h2⟩
      · rintro ⟨n2, hn2, h2⟩
        rcases List.mem_cons.mp hn2 with he | hm
        · exact absurd (he ▸ h2.1) ht
        · exact ⟨n2, hm, h2⟩

theorem dedup_find :
    ∀ (l : List Notification) (seen : List LowKey) (x : Notification),
      x ∈ dedupLowStock l seen → x.type = "LOW_STOCK" →
      lowKey x ∉ seen ∧
        l.find? (fun y => decide (y.type = "LOW_STOCK" ∧ lowKey y = lowKey x)) =
          some x := by
  intro l
  induction l with
  | nil =>
    intro seen x hx _
    simp [dedupLowStock] at hx
  | cons n rest ih =>
    intro seen x hx htx
    rw [dedupLowStock] at hx
    by_cases ht : n.type = "LOW_STOCK"
    · rw [if_pos ht] at hx
      by_cases hs : lowKey n ∈ seen
      · rw [if_pos hs] at hx
        obtain ⟨hns, hfind⟩ := ih seen x hx htx
        refine ⟨hns, ?_⟩
        rw [List.find?_cons_of_neg, hfind]
        simp only [decide_eq_true_eq, not_and]
        intro _ he
        exact hns (he ▸ hs)
      · rw [if_neg hs] at hx
        rcases List.mem_cons.mp hx with he | hx2
        · subst he
          refine ⟨hs, ?_⟩
          rw [List.find?_cons_of_pos]
          simp [ht]
        · obtain ⟨hns, hfind⟩ := ih (lowKey n :: seen) x hx2 htx
          have hne : ¬(lowKey n = lowKey x) :=
            fun he2 => hns (he2 ▸ List.mem_cons_self (lowKey n) seen)
          refine ⟨fun hmem => hns (List.mem_cons_of_mem _ hmem), ?_⟩
          rw [List.find?_cons_of_neg, hfind]
          simp only [decide_eq_true_eq, not_and]
          intro _ he2
          exact hne he2
    · rw [if_neg ht] at hx
      rcases List.mem_cons.mp hx with he | hx2
      · subst he
        exact absurd htx ht
      · obtain ⟨hns, hfind⟩ := ih seen x hx2 htx
        refine ⟨hns, ?_⟩
        rw [List.find?_cons_of_neg, hfind]
        simp only [decide_eq_true_eq, not_and]
        intro ht2 _
        exact ht ht2

/-- C9: the listing's dedup loop keeps every non-LOW_STOCK item (in order),
keeps exactly one LOW_STOCK item per occurring dedup key (payload product id,
or the message text before " has only" when no product id is extractable),
and the kept LOW_STOCK item is the first of its key in the incoming list. -/
theorem fogon_C9_listing_dedup (l : List Notification) :
    ((dedupLowStock l []).filter (fun n => !decide (n.type = "LOW_STOCK")) =
      l.filter (fun n => !decide (n.type = "LOW_STOCK")))
    ∧ (∀ n ∈ l, n.type = "LOW_STOCK" →
        keyCount (dedupLowStock l []) (lowKey n) = 1)
    ∧ (∀ n ∈ dedupLowStock l [], n.type = "LOW_STOCK" →
        l.find? (fun y => decide (y.type = "LOW_STOCK" ∧ lowKey y = lowKey n)) =
          some n) := by
  refine ⟨dedup_other_types l [], ?_, ?_⟩
  · intro n hn htn
    rw [dedup_keyCount_new (lowKey n) l [] (by simp)]
    rw [if_pos ⟨n, hn, htn, rfl⟩]
  · intro n hn htn
    exact (dedup_find l [] n hn htn).2

theorem fogon_C9_listing_dedup_witness :
    keyCount (dedupLowStock [staleNotif, otherOwnerNotif, malformedNotif] [])
      (lowKey staleNotif) = 1 :=
  (fogon_C9_listing_dedup [staleNotif, otherOwnerNotif, malformedNotif]).2.1
    staleNotif (by decide) (by decide)

end Fogon
